import Mathlib

/-!
Verification of the directory-discovery component of prompts-mcp
(`packages/mcp-server/src/utils/directory-discovery.ts`).

The embedding models the Node.js `path.posix` primitives the source uses
(`resolve`, `dirname`) over component lists, the process environment as a
function `String → Option String`, the filesystem existence check
(`existsSync`) as a function `String → Bool`, and the process state
(`process.cwd()`, `os.homedir()`) as component lists of absolute paths.
An absolute normalized path `/a/b` is represented by its component list
`["a", "b"]`; the filesystem root `/` is `[]`.
-/

namespace DirectoryDiscovery

/-- The process environment: `process.env` as a partial map. -/
def Env : Type := String → Option String

/-- The filesystem existence oracle: `existsSync` as a predicate on paths. -/
def Fs : Type := String → Bool

/-! ### Model of Node `path.posix` string splitting and joining -/

/-- Splitting a character list on the separator character, modelling how
`path.posix` decomposes a path into segments at each occurrence of the
slash (the semantics of splitting a string on the one-character separator). -/
def splitChars : List Char → List (List Char)
  | [] => [[]]
  | c :: cs =>
    if c = '/' then [] :: splitChars cs
    else
      match splitChars cs with
      | [] => [[c]]
      | h :: t => (c :: h) :: t

/-- The path segments of a string: split its characters on the slash. -/
def comps (s : String) : List String := (splitChars s.data).map String.mk

/-- Joining segment character lists with the slash separator. -/
def joinChars : List (List Char) → List Char
  | [] => []
  | [l] => l
  | l :: ls => l ++ '/' :: joinChars ls

/-- Rendering an absolute path from its component list: a leading slash
followed by the components joined with slashes (`renderAbs [] = "/"`,
`renderAbs ["a","b"] = "/a/b"`). -/
def renderAbs (l : List String) : String :=
  String.mk ('/' :: joinChars (l.map String.data))

/-- Model of `path.posix.isAbsolute` as used by `resolve`: the first
character is a slash. -/
def isAbsolute (p : String) : Bool :=
  match p.data with
  | [] => false
  | c :: _ => c = '/'

/-- One step of path normalization, as performed by `path.posix.resolve` on
an absolute path: empty segments and `.` are dropped, `..` removes the last
accumulated segment (at the root it is dropped), any other segment is kept. -/
def normStep (acc : List String) (c : String) : List String :=
  if c = "" ∨ c = "." then acc
  else if c = ".." then acc.dropLast
  else acc ++ [c]

/-- Normalization of a segment list (the `.`/`..`/empty-segment processing
of `path.posix.resolve` for an absolute path). -/
def normComps (l : List String) : List String := l.foldl normStep []

/-- Model of Node `resolve(p)` against a base directory given as the
component list of an absolute normalized path (the process cwd, the home
directory, or an already-resolved directory): an absolute `p` is normalized
on its own, a relative `p` is appended to the base and normalized. -/
def resolveFrom (base : List String) (p : String) : List String :=
  if isAbsolute p then normComps (comps p)
  else normComps (base ++ comps p)

/-- Model of Node `resolve(a, b)` for two string arguments against the
process cwd: arguments are consumed right to left until an absolute one is
found, the cwd is prepended when none is, then the whole is normalized. -/
def resolve2 (cwd : List String) (a b : String) : List String :=
  if isAbsolute b then normComps (comps b)
  else if isAbsolute a then normComps (comps a ++ comps b)
  else normComps (cwd ++ comps a ++ comps b)

/-! ### Data model (source lines 19–86) -/

/-- Source line 23: the fixed, process-wide start-directory override variable. -/
def PROJECT_DIR_ENV_VAR : String := "PROJECT_DIR"

/-- Source line 29: the suffix appended to the caller-supplied base name to
obtain the per-call subdirectory override variable. -/
def SUBDIR_ENV_VAR_SUFFIX : String := "_SUBDIR"

/-- Source lines 34–66: options for directory discovery. Optional fields are
`Option`-valued; the source's destructuring defaults (`useHomeFallback = true`,
`homeSubdir = subdir`) are applied in `discoverDirectory`. -/
structure DirectoryDiscoveryOptions where
  subdirEnvPrefix : Option String
  subdir : String
  startDir : Option String
  useHomeFallback : Option Bool
  homeSubdir : Option String
  deriving DecidableEq, Repr

/-- Source line 80: the provenance tag of a discovery result. The spec's
`env-override` names the code's `env-subdir`. -/
inductive Source
  | envSubdir
  | envProject
  | project
  | home
  deriving DecidableEq, Repr

/-- Source lines 71–86: result of directory discovery. -/
structure DirectoryDiscoveryResult where
  path : String
  source : Source
  «exists» : Bool
  deriving DecidableEq, Repr

/-! ### The algorithm (source lines 88–233) -/

/-- JavaScript truthiness of an environment lookup, as in
`if (process.env[k])`: the variable is defined and non-empty. -/
def envTruthy (env : Env) (k : String) : Bool :=
  match env k with
  | some v => v ≠ ""
  | none => false

/-- Source lines 91–98, `getStartDirectory`: the `PROJECT_DIR` environment
variable, when truthy, is resolved and returned; otherwise the provided
start directory, or `process.cwd()` (rendered from the `cwd` component
list), is returned as-is. -/
def getStartDirectory (env : Env) (cwd : List String)
    (providedStartDir : Option String) : String :=
  if envTruthy env PROJECT_DIR_ENV_VAR then
    renderAbs (resolveFrom cwd ((env PROJECT_DIR_ENV_VAR).getD ""))
  else
    providedStartDir.getD (renderAbs cwd)

/-- The loop of `searchUpward` (source lines 110–116) plus the final root
check (lines 118–122). The current directory is carried as the REVERSED
component list of its absolute normalized path, so that taking
`dirname(currentDir)` (dropping the last component) is structural recursion
on the head. `[]` is the root, where the loop `while (currentDir !== root)`
has exited and the root itself is checked. -/
def searchUpwardGo (fs : Fs) (subdir : String) : List String → Option String
  | [] =>
    let rootPath := renderAbs (resolveFrom [] subdir)
    if fs rootPath then some rootPath else none
  | c :: rest =>
    let targetPath := renderAbs (resolveFrom ((c :: rest).reverse) subdir)
    if fs targetPath then some targetPath
    else searchUpwardGo fs subdir rest

/-- Source lines 106–125, `searchUpward`: resolve the start directory
(`resolve(startDir)` against the process cwd), then walk upward towards the
root, returning the first existing candidate `resolve(currentDir, subdir)`. -/
def searchUpward (fs : Fs) (cwd : List String) (startDir subdir : String) :
    Option String :=
  searchUpwardGo fs subdir (resolveFrom cwd startDir).reverse

/-- Source lines 185–214: strategies 2–4 of `discoverDirectory`, after the
per-call override has not applied. `useHomeFallback` and `homeSubdir` arrive
with the destructuring defaults already applied. -/
def discoverDirectorySearch (env : Env) (fs : Fs) (cwd home : List String)
    (subdir : String) (startDir : Option String) (useHomeFallback : Bool)
    (homeSubdir : String) : DirectoryDiscoveryResult :=
  let effectiveStartDir := getStartDirectory env cwd startDir
  let usedProjectDirEnv := (env PROJECT_DIR_ENV_VAR).isSome
  match searchUpward fs cwd effectiveStartDir subdir with
  | some projectPath =>
    { path := projectPath
      source := if usedProjectDirEnv then Source.envProject else Source.project
      «exists» := true }
  | none =>
    if useHomeFallback then
      let homePath := renderAbs (resolveFrom home homeSubdir)
      { path := homePath, source := Source.home, «exists» := fs homePath }
    else
      { path := renderAbs (resolve2 cwd (getStartDirectory env cwd startDir) subdir)
        source := if usedProjectDirEnv then Source.envProject else Source.project
        «exists» := false }

/-- Source lines 161–215, `discoverDirectory`: strategy 1 runs only when the
override base name is provided AND non-empty (line 173, `if (subdirEnvPrefix)`,
a JS truthiness check on the string), and then only when the per-call
`{base}_SUBDIR` environment variable is itself truthy (line 175, so an empty
value falls through); it then short-circuits. Otherwise strategies 2–4 run. -/
def discoverDirectory (env : Env) (fs : Fs) (cwd home : List String)
    (options : DirectoryDiscoveryOptions) : DirectoryDiscoveryResult :=
  let overrideResult : Option DirectoryDiscoveryResult :=
    match options.subdirEnvPrefix with
    | some base =>
      if base ≠ "" then
        let subdirEnvVar := base ++ SUBDIR_ENV_VAR_SUFFIX
        if envTruthy env subdirEnvVar then
          let envPath := renderAbs (resolveFrom cwd ((env subdirEnvVar).getD ""))
          some { path := envPath, source := Source.envSubdir, «exists» := fs envPath }
        else none
      else none
    | none => none
  match overrideResult with
  | some r => r
  | none =>
    discoverDirectorySearch env fs cwd home options.subdir options.startDir
      (options.useHomeFallback.getD true) (options.homeSubdir.getD options.subdir)

/-- Source lines 222–224, `findDirectory`: projection to the path. -/
def findDirectory (env : Env) (fs : Fs) (cwd home : List String)
    (options : DirectoryDiscoveryOptions) : String :=
  (discoverDirectory env fs cwd home options).path

/-- Source lines 231–233, `directoryExists`: projection to the flag. -/
def directoryExists (env : Env) (fs : Fs) (cwd home : List String)
    (options : DirectoryDiscoveryOptions) : Bool :=
  (discoverDirectory env fs cwd home options).«exists»

/-- Whether strategy 1 of `discoverDirectory` applies: an override base name
is provided and non-empty (line 173 truthiness) and its `_SUBDIR` variable is
truthy. -/
def overrideApplies (env : Env) (options : DirectoryDiscoveryOptions) : Bool :=
  match options.subdirEnvPrefix with
  | some base => base ≠ "" && envTruthy env (base ++ SUBDIR_ENV_VAR_SUFFIX)
  | none => false

/-! ### Helper lemmas -/


def ancestorChainRev : List String → List (List String)
  | [] => [[]]
  | c :: rest => (c :: rest).reverse :: ancestorChainRev rest

def ancestorChain (l : List String) : List (List String) :=
  ancestorChainRev l.reverse

theorem nil_mem_ancestorChainRev (r : List String) : [] ∈ ancestorChainRev r := by
  induction r with
  | nil => simp [ancestorChainRev]
  | cons c rest ih => simp [ancestorChainRev, ih]

theorem searchUpwardGo_eq_find? (fs : Fs) (subdir : String) (r : List String) :
    searchUpwardGo fs subdir r
      = ((ancestorChainRev r).map (fun d => renderAbs (resolveFrom d subdir))).find? fs := by
  induction r with
  | nil =>
    simp only [searchUpwardGo, ancestorChainRev, List.map_cons, List.map_nil]
    cases hfs : fs (renderAbs (resolveFrom [] subdir)) <;>
      simp [List.find?_cons_of_pos, List.find?_cons_of_neg, hfs]
  | cons c rest ih =>
    simp only [searchUpwardGo, ancestorChainRev, List.map_cons]
    cases hfs : fs (renderAbs (resolveFrom (c :: rest).reverse subdir)) <;>
      simp_all [List.find?_cons_of_pos, List.find?_cons_of_neg, hfs]

theorem searchUpward_eq_find? (fs : Fs) (cwd : List String) (startDir subdir : String) :
    searchUpward fs cwd startDir subdir
      = ((ancestorChain (resolveFrom cwd startDir)).map
          (fun d => renderAbs (resolveFrom d subdir))).find? fs := by
  simp [searchUpward, ancestorChain, searchUpwardGo_eq_find?]

theorem mem_splitChars_not_slash : ∀ {cs l : List Char}, l ∈ splitChars cs → '/' ∉ l := by
  intro cs
  induction cs with
  | nil =>
    intro l h
    simp [splitChars] at h
    subst h; simp
  | cons c cs ih =>
    intro l h
    simp only [splitChars] at h
    by_cases hc : c = '/'
    · rw [if_pos hc] at h
      rcases List.mem_cons.mp h with h | h
      · subst h; simp
      · exact ih h
    · rw [if_neg hc] at h
      rcases hsp : splitChars cs with _ | ⟨hd, tl⟩
      · rw [hsp] at h
        simp at h
        subst h
        intro hmem
        simp at hmem
        exact hc hmem.symm
      · rw [hsp] at h
        have hhd : hd ∈ splitChars cs := by rw [hsp]; exact List.mem_cons_self hd tl
        rcases List.mem_cons.mp h with h | h
        · subst h
          intro hmem
          rcases List.mem_cons.mp hmem with h1 | h1
          · exact hc h1.symm
          · exact ih hhd h1
        · exact ih (by rw [hsp]; exact List.mem_cons_of_mem hd h)



theorem splitChars_ne_nil (cs : List Char) : splitChars cs ≠ [] := by
  cases cs with
  | nil => simp [splitChars]
  | cons c cs =>
    simp only [splitChars]
    by_cases hc : c = '/'
    · simp [hc]
    · rw [if_neg hc]
      rcases hsp : splitChars cs with _ | ⟨hd, tl⟩ <;> simp

theorem splitChars_of_not_slash {cs : List Char} (h : '/' ∉ cs) :
    splitChars cs = [cs] := by
  induction cs with
  | nil => rfl
  | cons c cs ih =>
    simp at h
    simp only [splitChars]
    rw [if_neg (fun hh => h.1 hh.symm), ih h.2]

theorem splitChars_append_slash {a : List Char} (b : List Char) (h : '/' ∉ a) :
    splitChars (a ++ '/' :: b) = a :: splitChars b := by
  induction a with
  | nil => simp [splitChars]
  | cons c a ih =>
    simp at h
    simp only [List.cons_append, splitChars, List.append_eq]
    rw [if_neg (fun hh => h.1 hh.symm), ih h.2]

theorem splitChars_joinChars : ∀ {ls : List (List Char)}, ls ≠ [] →
    (∀ l ∈ ls, '/' ∉ l) → splitChars (joinChars ls) = ls := by
  intro ls
  induction ls with
  | nil => intro h; exact absurd rfl h
  | cons l ls ih =>
    intro _ hslash
    cases ls with
    | nil =>
      simp only [joinChars]
      exact splitChars_of_not_slash (hslash l (List.mem_cons_self l []))
    | cons l2 ls2 =>
      simp only [joinChars]
      rw [splitChars_append_slash _ (hslash l (List.mem_cons_self _ _))]
      rw [ih (by simp) (fun x hx => hslash x (List.mem_cons_of_mem l hx))]

theorem foldl_normStep_mem {l : List String} {acc : List String} {x : String}
    (h : x ∈ l.foldl normStep acc) :
    x ∈ acc ∨ (x ∈ l ∧ x ≠ "" ∧ x ≠ "." ∧ x ≠ "..") := by
  induction l generalizing acc with
  | nil => simp at h; exact Or.inl h
  | cons c l ih =>
    simp only [List.foldl_cons] at h
    rcases ih h with hacc | hl
    · unfold normStep at hacc
      by_cases h1 : c = "" ∨ c = "."
      · rw [if_pos h1] at hacc; exact Or.inl hacc
      · rw [if_neg h1] at hacc
        by_cases h2 : c = ".."
        · rw [if_pos h2] at hacc
          exact Or.inl (List.dropLast_subset _ hacc)
        · rw [if_neg h2] at hacc
          rcases List.mem_append.mp hacc with h3 | h3
          · exact Or.inl h3
          · simp at h3
            subst h3
            push_neg at h1
            exact Or.inr ⟨List.mem_cons_self _ _, h1.1, h1.2, h2⟩
    · exact Or.inr ⟨List.mem_cons_of_mem _ hl.1, hl.2⟩

theorem normComps_mem {l : List String} {x : String} (h : x ∈ normComps l) :
    x ∈ l ∧ x ≠ "" ∧ x ≠ "." ∧ x ≠ ".." := by
  rcases foldl_normStep_mem h with h | h
  · simp at h
  · exact h

theorem normComps_of_clean : ∀ {l : List String},
    (∀ c ∈ l, c ≠ "" ∧ c ≠ "." ∧ c ≠ "..") → normComps l = l := by
  have key : ∀ (l acc : List String), (∀ c ∈ l, c ≠ "" ∧ c ≠ "." ∧ c ≠ "..") →
      l.foldl normStep acc = acc ++ l := by
    intro l
    induction l with
    | nil => simp
    | cons c l ih =>
      intro acc hc
      have h1 := hc c (List.mem_cons_self _ _)
      simp only [List.foldl_cons]
      rw [show normStep acc c = acc ++ [c] by
        unfold normStep
        rw [if_neg (by push_neg; exact ⟨h1.1, h1.2.1⟩), if_neg h1.2.2]]
      rw [ih _ (fun x hx => hc x (List.mem_cons_of_mem _ hx))]
      simp
  intro l h
  simpa using key l [] h



def cleanComp (c : String) : Prop :=
  c ≠ "" ∧ c ≠ "." ∧ c ≠ ".." ∧ '/' ∉ c.data

instance (c : String) : Decidable (cleanComp c) := by
  unfold cleanComp; infer_instance

def isNormalizedAbsPath (s : String) : Prop :=
  ∃ l : List String, (∀ c ∈ l, cleanComp c) ∧ s = renderAbs l

theorem mem_comps_not_slash {p : String} {c : String} (h : c ∈ comps p) :
    '/' ∉ c.data := by
  simp only [comps, List.mem_map] at h
  rcases h with ⟨l, hl, rfl⟩
  exact mem_splitChars_not_slash hl

theorem resolveFrom_clean {base : List String} (p : String)
    (hbase : ∀ c ∈ base, '/' ∉ c.data) :
    ∀ x ∈ resolveFrom base p, cleanComp x := by
  intro x hx
  unfold resolveFrom at hx
  by_cases habs : isAbsolute p
  · rw [if_pos habs] at hx
    have h := normComps_mem hx
    exact ⟨h.2.1, h.2.2.1, h.2.2.2, mem_comps_not_slash h.1⟩
  · rw [if_neg habs] at hx
    have h := normComps_mem hx
    refine ⟨h.2.1, h.2.2.1, h.2.2.2, ?_⟩
    rcases List.mem_append.mp h.1 with hm | hm
    · exact hbase x hm
    · exact mem_comps_not_slash hm

theorem resolve2_clean (cwd : List String) (a b : String)
    (hcwd : ∀ c ∈ cwd, '/' ∉ c.data) :
    ∀ x ∈ resolve2 cwd a b, cleanComp x := by
  intro x hx
  unfold resolve2 at hx
  by_cases hb : isAbsolute b
  · rw [if_pos hb] at hx
    have h := normComps_mem hx
    exact ⟨h.2.1, h.2.2.1, h.2.2.2, mem_comps_not_slash h.1⟩
  · rw [if_neg hb] at hx
    by_cases ha : isAbsolute a
    · rw [if_pos ha] at hx
      have h := normComps_mem hx
      refine ⟨h.2.1, h.2.2.1, h.2.2.2, ?_⟩
      rcases List.mem_append.mp h.1 with hm | hm
      · exact mem_comps_not_slash hm
      · exact mem_comps_not_slash hm
    · rw [if_neg ha] at hx
      have h := normComps_mem hx
      refine ⟨h.2.1, h.2.2.1, h.2.2.2, ?_⟩
      rcases List.mem_append.mp h.1 with hm | hm
      · rcases List.mem_append.mp hm with hm2 | hm2
        · exact hcwd x hm2
        · exact mem_comps_not_slash hm2
      · exact mem_comps_not_slash hm

theorem comps_renderAbs {l : List String} (hne : l ≠ [])
    (h : ∀ c ∈ l, '/' ∉ c.data) : comps (renderAbs l) = "" :: l := by
  unfold comps renderAbs
  show (splitChars ('/' :: joinChars (l.map String.data))).map String.mk = "" :: l
  rw [show splitChars ('/' :: joinChars (l.map String.data))
        = [] :: splitChars (joinChars (l.map String.data)) by
    simp [splitChars]]
  rw [splitChars_joinChars (by simpa using hne)
        (by intro x hx; simp only [List.mem_map] at hx
            rcases hx with ⟨c, hc, rfl⟩; exact h c hc)]
  simp only [List.map_cons, List.map_map]
  congr 1
  rw [show String.mk ∘ String.data = id from funext (fun s => rfl)]
  simp

theorem isAbsolute_renderAbs (l : List String) : isAbsolute (renderAbs l) = true := by
  unfold isAbsolute renderAbs
  rfl

theorem resolveFrom_renderAbs (base : List String) {l : List String}
    (h : ∀ c ∈ l, cleanComp c) : resolveFrom base (renderAbs l) = l := by
  unfold resolveFrom
  rw [if_pos (isAbsolute_renderAbs l)]
  rcases eq_or_ne l [] with rfl | hne
  · rfl
  · rw [comps_renderAbs hne (fun c hc => (h c hc).2.2.2)]
    unfold normComps
    simp only [List.foldl_cons]
    rw [show normStep [] "" = [] from rfl]
    exact normComps_of_clean (fun c hc => ⟨(h c hc).1, (h c hc).2.1, (h c hc).2.2.1⟩)



theorem searchUpwardGo_clean {fs : Fs} {subdir : String} :
    ∀ {r : List String}, (∀ c ∈ r, '/' ∉ c.data) →
    ∀ {s : String}, searchUpwardGo fs subdir r = some s →
    ∃ l, (∀ c ∈ l, cleanComp c) ∧ s = renderAbs l := by
  intro r
  induction r with
  | nil =>
    intro _ s h
    simp only [searchUpwardGo] at h
    by_cases hfs : fs (renderAbs (resolveFrom [] subdir))
    · rw [if_pos hfs] at h
      exact ⟨resolveFrom [] subdir, resolveFrom_clean subdir (by simp),
        (Option.some_inj.mp h).symm⟩
    · rw [if_neg hfs] at h; exact absurd h (by simp)
  | cons c rest ih =>
    intro hr s h
    simp only [searchUpwardGo] at h
    by_cases hfs : fs (renderAbs (resolveFrom (c :: rest).reverse subdir))
    · rw [if_pos hfs] at h
      refine ⟨resolveFrom (c :: rest).reverse subdir,
        resolveFrom_clean subdir ?_, (Option.some_inj.mp h).symm⟩
      intro x hx
      exact hr x (List.mem_reverse.mp hx)
    · rw [if_neg hfs] at h
      exact ih (fun x hx => hr x (List.mem_cons_of_mem c hx)) h

theorem searchUpward_clean {fs : Fs} {cwd : List String} {startDir subdir s : String}
    (hcwd : ∀ c ∈ cwd, '/' ∉ c.data)
    (h : searchUpward fs cwd startDir subdir = some s) :
    ∃ l, (∀ c ∈ l, cleanComp c) ∧ s = renderAbs l := by
  refine searchUpwardGo_clean ?_ h
  intro c hc
  have := resolveFrom_clean startDir hcwd c (List.mem_reverse.mp hc)
  exact this.2.2.2

theorem projectDirVar_ne (p : String) :
    p ++ SUBDIR_ENV_VAR_SUFFIX ≠ PROJECT_DIR_ENV_VAR := by
  intro h
  have hd : p.data ++ ("_SUBDIR" : String).data = ("PROJECT_DIR" : String).data := by
    have := congrArg String.data h
    simpa [PROJECT_DIR_ENV_VAR, SUBDIR_ENV_VAR_SUFFIX, String.data_append] using this
  have hlen : p.data.length = 4 := by
    have := congrArg List.length hd
    simp only [List.length_append] at this
    have e1 : (['_', 'S', 'U', 'B', 'D', 'I', 'R'] : List Char).length = 7 := by decide
    have e2 : (['P', 'R', 'O', 'J', 'E', 'C', 'T', '_', 'D', 'I', 'R'] : List Char).length = 11 := by
      decide
    rw [e1, e2] at this
    omega
  have h2 := congrArg (List.drop p.data.length) hd
  rw [List.drop_left, hlen] at h2
  revert h2
  decide



theorem discoverDirectory_of_no_override {env : Env} {options : DirectoryDiscoveryOptions}
    (fs : Fs) (cwd home : List String)
    (h : overrideApplies env options = false) :
    discoverDirectory env fs cwd home options
      = discoverDirectorySearch env fs cwd home options.subdir options.startDir
          (options.useHomeFallback.getD true) (options.homeSubdir.getD options.subdir) := by
  unfold discoverDirectory
  unfold overrideApplies at h
  rcases hp : options.subdirEnvPrefix with _ | base
  · rfl
  · rw [hp] at h
    replace h : (base ≠ "" && envTruthy env (base ++ SUBDIR_ENV_VAR_SUFFIX)) = false := h
    by_cases hb : base = ""
    · simp [hb]
    · have h2 : envTruthy env (base ++ SUBDIR_ENV_VAR_SUFFIX) = false := by
        simpa [hb] using h
      simp [h2]

theorem getStartDirectory_env_congr {env1 env2 : Env} (cwd : List String)
    (st : Option String)
    (h : env1 PROJECT_DIR_ENV_VAR = env2 PROJECT_DIR_ENV_VAR) :
    getStartDirectory env1 cwd st = getStartDirectory env2 cwd st := by
  unfold getStartDirectory envTruthy
  rw [h]

theorem discoverDirectorySearch_env_congr {env1 env2 : Env} (fs : Fs)
    (cwd home : List String) (subdir : String) (startDir : Option String)
    (useHomeFallback : Bool) (homeSubdir : String)
    (h : env1 PROJECT_DIR_ENV_VAR = env2 PROJECT_DIR_ENV_VAR) :
    discoverDirectorySearch env1 fs cwd home subdir startDir useHomeFallback homeSubdir
      = discoverDirectorySearch env2 fs cwd home subdir startDir useHomeFallback homeSubdir := by
  unfold discoverDirectorySearch
  rw [getStartDirectory_env_congr cwd startDir h, h]


/-! ### Branch lemmas and probe counting -/


/-- Branch lemma: a successful upward search yields the search-hit result
of source lines 191–197. -/
theorem discoverDirectorySearch_hit {env : Env} {fs : Fs} {cwd home : List String}
    {subdir : String} {startDir : Option String} {uhf : Bool} {homeSubdir p : String}
    (h : searchUpward fs cwd (getStartDirectory env cwd startDir) subdir = some p) :
    discoverDirectorySearch env fs cwd home subdir startDir uhf homeSubdir
      = { path := p
          source := if (env PROJECT_DIR_ENV_VAR).isSome then Source.envProject
                    else Source.project
          «exists» := true } := by
  simp [discoverDirectorySearch, h]

/-- Branch lemma: a failed search with the home fallback enabled yields the
home result of source lines 200–207. -/
theorem discoverDirectorySearch_miss_home {env : Env} {fs : Fs}
    {cwd home : List String} {subdir : String} {startDir : Option String}
    {homeSubdir : String}
    (h : searchUpward fs cwd (getStartDirectory env cwd startDir) subdir = none) :
    discoverDirectorySearch env fs cwd home subdir startDir true homeSubdir
      = { path := renderAbs (resolveFrom home homeSubdir)
          source := Source.home
          «exists» := fs (renderAbs (resolveFrom home homeSubdir)) } := by
  simp [discoverDirectorySearch, h]

/-- Branch lemma: a failed search with the home fallback disabled yields the
give-up result of source lines 210–214. -/
theorem discoverDirectorySearch_miss_nohome {env : Env} {fs : Fs}
    {cwd home : List String} {subdir : String} {startDir : Option String}
    {homeSubdir : String}
    (h : searchUpward fs cwd (getStartDirectory env cwd startDir) subdir = none) :
    discoverDirectorySearch env fs cwd home subdir startDir false homeSubdir
      = { path := renderAbs (resolve2 cwd (getStartDirectory env cwd startDir) subdir)
          source := if (env PROJECT_DIR_ENV_VAR).isSome then Source.envProject
                    else Source.project
          «exists» := false } := by
  simp [discoverDirectorySearch, h]

/-- Number of `existsSync` probes made by the `searchUpward` loop from the
given (reversed) current directory: one per visited directory, stopping at
the first hit, plus the final root check when the loop exhausts. -/
def searchUpwardProbes (fs : Fs) (subdir : String) : List String → Nat
  | [] => 1
  | c :: rest =>
    if fs (renderAbs (resolveFrom ((c :: rest).reverse) subdir)) then 1
    else 1 + searchUpwardProbes fs subdir rest

/-- Number of `existsSync` probes made by one `discoverDirectory` call:
one when the per-call override applies (strategy 1), otherwise the upward
search's probes plus one more for the home check when the search misses and
the home fallback is enabled. -/
def discoverDirectoryProbes (env : Env) (fs : Fs) (cwd home : List String)
    (options : DirectoryDiscoveryOptions) : Nat :=
  if overrideApplies env options then 1
  else
    let effectiveStartDir := getStartDirectory env cwd options.startDir
    let searchProbes :=
      searchUpwardProbes fs options.subdir (resolveFrom cwd effectiveStartDir).reverse
    match searchUpward fs cwd effectiveStartDir options.subdir with
    | some _ => searchProbes
    | none =>
      if options.useHomeFallback.getD true then searchProbes + 1 else searchProbes

/-- The upward search probes each directory of the chain at most once:
chain length plus one for the root. -/
theorem searchUpwardProbes_le (fs : Fs) (subdir : String) (r : List String) :
    searchUpwardProbes fs subdir r ≤ r.length + 1 := by
  induction r with
  | nil => simp [searchUpwardProbes]
  | cons c rest ih =>
    simp only [searchUpwardProbes]
    by_cases h : fs (renderAbs (resolveFrom (c :: rest).reverse subdir))
    · rw [if_pos h]; simp only [List.length_cons]; omega
    · rw [if_neg h]; simp only [List.length_cons]; omega



/-- Total probe bound: one possible override probe, the upward-search chain,
one possible home probe. -/
theorem discoverDirectoryProbes_le (env : Env) (fs : Fs) (cwd home : List String)
    (options : DirectoryDiscoveryOptions) :
    discoverDirectoryProbes env fs cwd home options
      ≤ 1 + ((resolveFrom cwd (getStartDirectory env cwd options.startDir)).length + 1)
          + 1 := by
  unfold discoverDirectoryProbes
  by_cases hov : overrideApplies env options
  · rw [if_pos hov]; omega
  · rw [if_neg hov]
    have hb := searchUpwardProbes_le fs options.subdir
      (resolveFrom cwd (getStartDirectory env cwd options.startDir)).reverse
    rw [List.length_reverse] at hb
    rcases hs : searchUpward fs cwd (getStartDirectory env cwd options.startDir)
        options.subdir with _ | p
    · simp only [hs]
      by_cases hf : options.useHomeFallback.getD true
      · rw [if_pos hf]; omega
      · rw [if_neg hf]; omega
    · simp only [hs]
      omega



/-- Branch lemma: a provided NON-EMPTY override base name whose variable is
set non-empty short-circuits into the strategy-1 result of source lines
172–183. -/
theorem discoverDirectory_override {env : Env} {fs : Fs} {cwd home : List String}
    {options : DirectoryDiscoveryOptions} {base v : String}
    (hbase : options.subdirEnvPrefix = some base) (hbne : base ≠ "")
    (hv : env (base ++ SUBDIR_ENV_VAR_SUFFIX) = some v) (hne : v ≠ "") :
    discoverDirectory env fs cwd home options =
      { path := renderAbs (resolveFrom cwd v)
        source := Source.envSubdir
        «exists» := fs (renderAbs (resolveFrom cwd v)) } := by
  have ht : envTruthy env (base ++ SUBDIR_ENV_VAR_SUFFIX) = true := by
    simp [envTruthy, hv, hne]
  simp [discoverDirectory, hbase, hbne, ht, hv]

/-- Strategies 2–4 never produce the strategy-1 provenance tag. -/
theorem discoverDirectorySearch_source_ne_envSubdir {env : Env} {fs : Fs}
    {cwd home : List String} {subdir : String} {st : Option String} {uhf : Bool}
    {hsd : String} :
    (discoverDirectorySearch env fs cwd home subdir st uhf hsd).source
      ≠ Source.envSubdir := by
  unfold discoverDirectorySearch
  rcases h : searchUpward fs cwd (getStartDirectory env cwd st) subdir with _ | p
  · simp only [h]
    cases hf : uhf
    · simp only [Bool.false_eq_true, if_false]
      cases hp : (env PROJECT_DIR_ENV_VAR).isSome <;> simp [hp]
    · simp
  · simp only [h]
    cases hp : (env PROJECT_DIR_ENV_VAR).isSome <;> simp [hp]

/-- With `PROJECT_DIR` defined, strategies 2–4 never tag a result `project`. -/
theorem discoverDirectorySearch_source_ne_project {env : Env} {fs : Fs}
    {cwd home : List String} {subdir : String} {st : Option String} {uhf : Bool}
    {hsd : String} (h : (env PROJECT_DIR_ENV_VAR).isSome = true) :
    (discoverDirectorySearch env fs cwd home subdir st uhf hsd).source
      ≠ Source.project := by
  unfold discoverDirectorySearch
  rcases hs : searchUpward fs cwd (getStartDirectory env cwd st) subdir with _ | p
  · simp only [hs]
    cases hf : uhf
    · simp [h]
    · simp
  · simp only [hs]
    simp [h]



/-- C1 counterexample: an EMPTY override base name is provided and its
variable `_SUBDIR` is set to the non-empty path `/x`, yet `discoverDirectory`
does not short-circuit: line 173's truthiness check `if (subdirEnvPrefix)`
skips strategy 1 for an empty base name, and the call proceeds to the upward
search, returning the give-up result `/a/.t` tagged `project` — not an
`env-subdir` (spec: `env-override`) result with path `/x`. -/
theorem claim1_counterexample :
    ((⟨some "", ".t", some "/a", some false, none⟩ :
        DirectoryDiscoveryOptions).subdirEnvPrefix = some "")
    ∧ ((fun k => if k = "_SUBDIR" then some "/x" else none : Env)
        ("" ++ SUBDIR_ENV_VAR_SUFFIX) = some "/x")
    ∧ ("/x" ≠ "")
    ∧ discoverDirectory (fun k => if k = "_SUBDIR" then some "/x" else none)
        (fun _ => false) ["c"] ["h"] ⟨some "", ".t", some "/a", some false, none⟩
      = { path := "/a/.t", source := Source.project, «exists» := false }
    ∧ Source.project ≠ Source.envSubdir
    ∧ "/a/.t" ≠ renderAbs (resolveFrom ["c"] "/x") := by
  refine ⟨by decide, by decide, by decide, by decide, by decide, by decide⟩

/-- C1 amended: for every request that provides a NON-EMPTY override base
name, if the environment variable named `{base}_SUBDIR` is set to a
non-empty string, `discoverDirectory` returns immediately with source
`env-subdir` (the spec's `env-override`) and path equal to that variable's
value resolved to an absolute path (relative values resolved against the
process's current working directory), with `exists` computed by the
filesystem check at that path — the result does not otherwise depend on the
filesystem state, `startDir`, `useHomeFallback` or the `PROJECT_DIR`
variable, and neither the upward search nor the home check contributes to
it. (An empty base name, like an absent one, skips the override entirely:
line 173.) -/
theorem claim1_override_env_short_circuits (env : Env) (fs : Fs)
    (cwd home : List String) (options : DirectoryDiscoveryOptions) (base v : String)
    (hbase : options.subdirEnvPrefix = some base) (hbne : base ≠ "")
    (hv : env (base ++ SUBDIR_ENV_VAR_SUFFIX) = some v) (hne : v ≠ "") :
    discoverDirectory env fs cwd home options =
      { path := renderAbs (resolveFrom cwd v)
        source := Source.envSubdir
        «exists» := fs (renderAbs (resolveFrom cwd v)) } :=
  discoverDirectory_override hbase hbne hv hne

/-- Witness for the amended C1 at a concrete environment, filesystem and
request. -/
theorem claim1_witness :
    ((⟨some "PROMPTS", ".prompts", some "/start", none, none⟩ :
        DirectoryDiscoveryOptions).subdirEnvPrefix = some "PROMPTS")
    ∧ ("PROMPTS" ≠ "")
    ∧ ((fun k => if k = "PROMPTS_SUBDIR" then some "custom/dir" else none : Env)
        ("PROMPTS" ++ SUBDIR_ENV_VAR_SUFFIX) = some "custom/dir")
    ∧ ("custom/dir" ≠ "")
    ∧ discoverDirectory (fun k => if k = "PROMPTS_SUBDIR" then some "custom/dir" else none)
        (fun _ => false) ["w"] ["h"] ⟨some "PROMPTS", ".prompts", some "/start", none, none⟩
      = { path := renderAbs (resolveFrom ["w"] "custom/dir")
          source := Source.envSubdir
          «exists» := (fun _ => false : Fs) (renderAbs (resolveFrom ["w"] "custom/dir")) } :=
  ⟨by decide, by decide, by decide, by decide,
    claim1_override_env_short_circuits _ _ _ _ _ "PROMPTS" "custom/dir"
      (by decide) (by decide) (by decide) (by decide)⟩

/-- C2: for every effective start directory and subdirectory, the upward
search equals a first-match scan of the candidates `currentDirectory +
subdirectory` over the ancestor chain of the effective start directory, from
the start directory up to and including the filesystem root: the root is a
member of the chain (so a target existing only at the root is found), every
returned candidate passes the existence check, and a search hit makes
`discoverDirectory` return that first candidate with `exists = true`. -/
theorem claim2_upward_search_order_and_root (fs : Fs) (cwd : List String)
    (startDir subdir : String) :
    searchUpward fs cwd startDir subdir
      = ((ancestorChain (resolveFrom cwd startDir)).map
          (fun d => renderAbs (resolveFrom d subdir))).find? fs
    ∧ [] ∈ ancestorChain (resolveFrom cwd startDir)
    ∧ (∀ p, searchUpward fs cwd startDir subdir = some p → fs p = true)
    ∧ (∀ (env : Env) (home : List String) (options : DirectoryDiscoveryOptions)
        (p : String),
        overrideApplies env options = false →
        searchUpward fs cwd (getStartDirectory env cwd options.startDir)
          options.subdir = some p →
        discoverDirectory env fs cwd home options =
          { path := p
            source := if (env PROJECT_DIR_ENV_VAR).isSome then Source.envProject
                      else Source.project
            «exists» := true }) := by
  refine ⟨searchUpward_eq_find? fs cwd startDir subdir,
    nil_mem_ancestorChainRev _, ?_, ?_⟩
  · intro p h
    rw [searchUpward_eq_find? fs cwd startDir subdir] at h
    exact List.find?_some h
  · intro env home options p hno hs
    rw [discoverDirectory_of_no_override fs cwd home hno]
    exact discoverDirectorySearch_hit hs



/-- C4: a per-call override variable set to the empty string behaves
exactly as if it were unset: `discoverDirectory` returns the same result as
with the variable removed from the environment, and the result is never an
`env-subdir` (spec: `env-override`) result — the call proceeds to the
effective start directory and the upward search. -/
theorem claim4_empty_override_as_unset (env : Env) (fs : Fs)
    (cwd home : List String) (options : DirectoryDiscoveryOptions) (base : String)
    (hbase : options.subdirEnvPrefix = some base)
    (hv : env (base ++ SUBDIR_ENV_VAR_SUFFIX) = some "") :
    discoverDirectory env fs cwd home options
      = discoverDirectory
          (fun k => if k = base ++ SUBDIR_ENV_VAR_SUFFIX then none else env k)
          fs cwd home options
    ∧ (discoverDirectory env fs cwd home options).source ≠ Source.envSubdir := by
  have hno : overrideApplies env options = false := by
    simp [overrideApplies, hbase, envTruthy, hv]
  have hno2 : overrideApplies
      (fun k => if k = base ++ SUBDIR_ENV_VAR_SUFFIX then none else env k)
      options = false := by
    simp [overrideApplies, hbase, envTruthy]
  have hpd : ((fun k => if k = base ++ SUBDIR_ENV_VAR_SUFFIX then none else env k) :
      Env) PROJECT_DIR_ENV_VAR = env PROJECT_DIR_ENV_VAR := by
    exact if_neg (fun h => projectDirVar_ne base h.symm)
  constructor
  · rw [discoverDirectory_of_no_override fs cwd home hno,
      discoverDirectory_of_no_override fs cwd home hno2]
    exact discoverDirectorySearch_env_congr fs cwd home options.subdir
      options.startDir (options.useHomeFallback.getD true)
      (options.homeSubdir.getD options.subdir) hpd.symm
  · rw [discoverDirectory_of_no_override fs cwd home hno]
    exact discoverDirectorySearch_source_ne_envSubdir

/-- Witness for C4 at a concrete environment, filesystem and request. -/
theorem claim4_witness :
    ((⟨some "PROMPTS", ".t", some "/a", none, none⟩ :
        DirectoryDiscoveryOptions).subdirEnvPrefix = some "PROMPTS")
    ∧ ((fun k => if k = "PROMPTS_SUBDIR" then some "" else none : Env)
        ("PROMPTS" ++ SUBDIR_ENV_VAR_SUFFIX) = some "")
    ∧ (discoverDirectory (fun k => if k = "PROMPTS_SUBDIR" then some "" else none)
          (fun p => p = "/a/.t") ["w"] ["h"] ⟨some "PROMPTS", ".t", some "/a", none, none⟩
        = discoverDirectory
            (fun k => if k = "PROMPTS" ++ SUBDIR_ENV_VAR_SUFFIX then none
                      else (fun k2 => if k2 = "PROMPTS_SUBDIR" then some "" else none) k)
            (fun p => p = "/a/.t") ["w"] ["h"] ⟨some "PROMPTS", ".t", some "/a", none, none⟩)
    ∧ (discoverDirectory (fun k => if k = "PROMPTS_SUBDIR" then some "" else none)
          (fun p => p = "/a/.t") ["w"] ["h"]
          ⟨some "PROMPTS", ".t", some "/a", none, none⟩).source ≠ Source.envSubdir :=
  ⟨by decide, by decide,
    (claim4_empty_override_as_unset _ _ _ _ _ "PROMPTS" (by decide) (by decide)).1,
    (claim4_empty_override_as_unset _ _ _ _ _ "PROMPTS" (by decide) (by decide)).2⟩

/-- C5: when the per-call override does not apply, the upward search finds
nothing from the effective start directory up to the root, and
`useHomeFallback` is true, `discoverDirectory` returns the home directory
joined with `homeSubdir` (which defaults to `subdir` when absent and is used
instead of `subdir` whenever provided), source `home`, and `exists` computed
by the filesystem check — source is `home` whether or not the path exists. -/
theorem claim5_home_fallback (env : Env) (fs : Fs) (cwd home : List String)
    (options : DirectoryDiscoveryOptions)
    (hno : overrideApplies env options = false)
    (hmiss : searchUpward fs cwd (getStartDirectory env cwd options.startDir)
      options.subdir = none)
    (hfb : options.useHomeFallback.getD true = true) :
    discoverDirectory env fs cwd home options =
      { path := renderAbs (resolveFrom home (options.homeSubdir.getD options.subdir))
        source := Source.home
        «exists» := fs (renderAbs (resolveFrom home
          (options.homeSubdir.getD options.subdir))) } := by
  rw [discoverDirectory_of_no_override fs cwd home hno, hfb]
  exact discoverDirectorySearch_miss_home hmiss

/-- Witness for C5 at a concrete environment, filesystem and request. -/
theorem claim5_witness :
    (overrideApplies (fun _ => none) ⟨none, ".p", some "/a", some true, some ".hp"⟩
        = false)
    ∧ (searchUpward (fun _ => false) ["w"]
        (getStartDirectory (fun _ => none) ["w"]
          (⟨none, ".p", some "/a", some true, some ".hp"⟩ :
            DirectoryDiscoveryOptions).startDir) ".p" = none)
    ∧ ((⟨none, ".p", some "/a", some true, some ".hp"⟩ :
        DirectoryDiscoveryOptions).useHomeFallback.getD true = true)
    ∧ discoverDirectory (fun _ => none) (fun _ => false) ["w"] ["h", "u"]
        ⟨none, ".p", some "/a", some true, some ".hp"⟩
      = { path := renderAbs (resolveFrom ["h", "u"] ".hp")
          source := Source.home
          «exists» := (fun _ => false : Fs) (renderAbs (resolveFrom ["h", "u"] ".hp")) } :=
  ⟨by decide, by decide, by decide,
    claim5_home_fallback _ _ _ _ _ (by decide) (by decide) (by decide)⟩



/-- C6 counterexample: `PROJECT_DIR` defined but empty, the per-call
override absent, the search misses and `useHomeFallback` is false. The
global override was NOT used — the effective start is the explicit
startDir `/q/r`, not the variable's resolved value `/d` — so the claim's
rule demands source `project`; the code returns `env-project` (line 187
tests `!== undefined`, not use). -/
theorem claim6_counterexample :
    ((fun k => if k = "PROJECT_DIR" then some "" else none : Env) PROJECT_DIR_ENV_VAR
        = some "")
    ∧ getStartDirectory (fun k => if k = "PROJECT_DIR" then some "" else none) ["d"]
        (some "/q/r") = "/q/r"
    ∧ "/q/r" ≠ renderAbs (resolveFrom ["d"] "")
    ∧ searchUpward (fun _ => false) ["d"] "/q/r" ".k" = none
    ∧ discoverDirectory (fun k => if k = "PROJECT_DIR" then some "" else none)
        (fun _ => false) ["d"] ["h"] ⟨none, ".k", some "/q/r", some false, none⟩
      = { path := "/q/r/.k", source := Source.envProject, «exists» := false }
    ∧ Source.envProject ≠ Source.project := by
  refine ⟨by decide, by decide, by decide, by decide, by decide, by decide⟩

/-- C6 amended: when the per-call override does not apply, the upward search
finds nothing, and `useHomeFallback` is false, `discoverDirectory` returns
the effective start directory joined with `subdir`, `exists = false`, and
source `env-project` when the global `PROJECT_DIR` variable is DEFINED (even
when defined-but-empty, in which case its value was not used as the start —
the code derives provenance from definedness, line 187), else `project`. The
function is total, so this not-found case never raises an error. -/
theorem claim6_no_fallback_result (env : Env) (fs : Fs) (cwd home : List String)
    (options : DirectoryDiscoveryOptions)
    (hno : overrideApplies env options = false)
    (hmiss : searchUpward fs cwd (getStartDirectory env cwd options.startDir)
      options.subdir = none)
    (hfb : options.useHomeFallback.getD true = false) :
    discoverDirectory env fs cwd home options =
      { path := renderAbs (resolve2 cwd (getStartDirectory env cwd options.startDir)
          options.subdir)
        source := if (env PROJECT_DIR_ENV_VAR).isSome then Source.envProject
                  else Source.project
        «exists» := false } := by
  rw [discoverDirectory_of_no_override fs cwd home hno, hfb]
  exact discoverDirectorySearch_miss_nohome hmiss

/-- Witness for the amended C6 at a concrete environment, filesystem and
request. -/
theorem claim6_witness :
    (overrideApplies (fun _ => none) ⟨none, ".p", some "/a/b", some false, none⟩
        = false)
    ∧ (searchUpward (fun _ => false) ["w"]
        (getStartDirectory (fun _ => none) ["w"]
          (⟨none, ".p", some "/a/b", some false, none⟩ :
            DirectoryDiscoveryOptions).startDir) ".p" = none)
    ∧ ((⟨none, ".p", some "/a/b", some false, none⟩ :
        DirectoryDiscoveryOptions).useHomeFallback.getD true = false)
    ∧ discoverDirectory (fun _ => none) (fun _ => false) ["w"] ["h"]
        ⟨none, ".p", some "/a/b", some false, none⟩
      = { path := renderAbs (resolve2 ["w"]
            (getStartDirectory (fun _ => none) ["w"] (some "/a/b")) ".p")
          source := if ((fun _ => none : Env) PROJECT_DIR_ENV_VAR).isSome
                    then Source.envProject else Source.project
          «exists» := false } :=
  ⟨by decide, by decide, by decide,
    claim6_no_fallback_result _ _ _ _ _ (by decide) (by decide) (by decide)⟩

/-- C10: when `PROJECT_DIR` is defined but empty, the effective start
directory is the caller-provided `startDir` (or the process cwd) — the empty
value does not replace the start — yet provenance is derived from the
variable being defined: the result's source is never `project`, and on both
branches that would be tagged `project` (upward-search hit, and miss without
home fallback) it is `env-project`. -/
theorem claim10_empty_project_dir (env : Env) (fs : Fs) (cwd home : List String)
    (options : DirectoryDiscoveryOptions)
    (henv : env PROJECT_DIR_ENV_VAR = some "")
    (hno : overrideApplies env options = false) :
    getStartDirectory env cwd options.startDir = options.startDir.getD (renderAbs cwd)
    ∧ (discoverDirectory env fs cwd home options).source ≠ Source.project
    ∧ (∀ p, searchUpward fs cwd (getStartDirectory env cwd options.startDir)
          options.subdir = some p →
        (discoverDirectory env fs cwd home options).source = Source.envProject)
    ∧ (searchUpward fs cwd (getStartDirectory env cwd options.startDir)
          options.subdir = none →
        options.useHomeFallback.getD true = false →
        (discoverDirectory env fs cwd home options).source = Source.envProject) := by
  have hsome : (env PROJECT_DIR_ENV_VAR).isSome = true := by rw [henv]; rfl
  refine ⟨?_, ?_, ?_, ?_⟩
  · simp [getStartDirectory, envTruthy, henv]
  · rw [discoverDirectory_of_no_override fs cwd home hno]
    exact discoverDirectorySearch_source_ne_project hsome
  · intro p hp
    rw [discoverDirectory_of_no_override fs cwd home hno,
      discoverDirectorySearch_hit hp, hsome]
    rfl
  · intro hmiss hfb
    rw [discoverDirectory_of_no_override fs cwd home hno, hfb,
      discoverDirectorySearch_miss_nohome hmiss, hsome]
    rfl

/-- Witness for C10 at a concrete environment, filesystem and request. -/
theorem claim10_witness :
    ((fun k => if k = "PROJECT_DIR" then some "" else none : Env) PROJECT_DIR_ENV_VAR
        = some "")
    ∧ (overrideApplies (fun k => if k = "PROJECT_DIR" then some "" else none)
        ⟨none, ".t", some "/a/b", some false, none⟩ = false)
    ∧ getStartDirectory (fun k => if k = "PROJECT_DIR" then some "" else none) ["c"]
        (⟨none, ".t", some "/a/b", some false, none⟩ :
          DirectoryDiscoveryOptions).startDir
      = (⟨none, ".t", some "/a/b", some false, none⟩ :
          DirectoryDiscoveryOptions).startDir.getD (renderAbs ["c"])
    ∧ (discoverDirectory (fun k => if k = "PROJECT_DIR" then some "" else none)
        (fun _ => false) ["c"] ["h"]
        ⟨none, ".t", some "/a/b", some false, none⟩).source ≠ Source.project :=
  ⟨by decide, by decide,
    (claim10_empty_project_dir _ (fun _ => false) ["c"] ["h"] _ (by decide) (by decide)).1,
    (claim10_empty_project_dir _ (fun _ => false) ["c"] ["h"] _ (by decide) (by decide)).2.1⟩



/-- C3 counterexample: with `PROJECT_DIR` set (to the empty string), the
per-call override absent, and `startDir = "/a/b"` explicitly passed, the
upward search starts from `/a/b` — not from the variable's value resolved to
an absolute path, which is `/c` (the process cwd) — as the returned give-up
path `/a/b/.t` shows. So a set-but-empty variable does not win over an
explicit `startDir`, refuting C3 as stated. -/
theorem claim3_counterexample :
    ((fun k => if k = "PROJECT_DIR" then some "" else none : Env) PROJECT_DIR_ENV_VAR
        = some "")
    ∧ getStartDirectory (fun k => if k = "PROJECT_DIR" then some "" else none) ["c"]
        (some "/a/b") = "/a/b"
    ∧ renderAbs (resolveFrom ["c"] "") = "/c"
    ∧ discoverDirectory (fun k => if k = "PROJECT_DIR" then some "" else none)
        (fun _ => false) ["c"] ["h"] ⟨none, ".t", some "/a/b", some false, none⟩
      = { path := "/a/b/.t", source := Source.envProject, «exists» := false }
    ∧ "/a/b" ≠ renderAbs (resolveFrom ["c"] "") := by
  refine ⟨by decide, by decide, by decide, by decide, by decide⟩

/-- C3 amended: for every request where no per-call override applies, if an
explicit `startDir` is passed and the global `PROJECT_DIR` variable is set
to a NON-EMPTY string, the variable's value resolved to an absolute path is
used as the start of the upward search instead of `startDir`, and the
result's source is `env-project` rather than `project` (a search hit returns
exactly `{path, env-project, true}`). -/
theorem claim3_env_project_wins (env : Env) (fs : Fs) (cwd home : List String)
    (options : DirectoryDiscoveryOptions) (s v : String)
    (hno : overrideApplies env options = false)
    (hstart : options.startDir = some s)
    (henv : env PROJECT_DIR_ENV_VAR = some v) (hne : v ≠ "") :
    getStartDirectory env cwd options.startDir = renderAbs (resolveFrom cwd v)
    ∧ (discoverDirectory env fs cwd home options).source ≠ Source.project
    ∧ (∀ p, searchUpward fs cwd (renderAbs (resolveFrom cwd v)) options.subdir
          = some p →
        discoverDirectory env fs cwd home options =
          { path := p, source := Source.envProject, «exists» := true }) := by
  have hsome : (env PROJECT_DIR_ENV_VAR).isSome = true := by rw [henv]; rfl
  have hstartEq : getStartDirectory env cwd options.startDir
      = renderAbs (resolveFrom cwd v) := by
    simp [getStartDirectory, envTruthy, henv, hne]
  refine ⟨hstartEq, ?_, ?_⟩
  · rw [discoverDirectory_of_no_override fs cwd home hno]
    exact discoverDirectorySearch_source_ne_project hsome
  · intro p hp
    rw [discoverDirectory_of_no_override fs cwd home hno,
      discoverDirectorySearch_hit (hstartEq ▸ hp), hsome]
    rfl

/-- Witness for the amended C3 at a concrete environment and request. -/
theorem claim3_witness :
    (overrideApplies (fun k => if k = "PROJECT_DIR" then some "/p" else none)
        ⟨none, ".t", some "/a/b", some false, none⟩ = false)
    ∧ ((⟨none, ".t", some "/a/b", some false, none⟩ :
        DirectoryDiscoveryOptions).startDir = some "/a/b")
    ∧ ((fun k => if k = "PROJECT_DIR" then some "/p" else none : Env)
        PROJECT_DIR_ENV_VAR = some "/p")
    ∧ ("/p" ≠ "")
    ∧ getStartDirectory (fun k => if k = "PROJECT_DIR" then some "/p" else none)
        ["c"] (⟨none, ".t", some "/a/b", some false, none⟩ :
          DirectoryDiscoveryOptions).startDir = renderAbs (resolveFrom ["c"] "/p")
    ∧ (∀ p, searchUpward (fun q => q = "/p/.t") ["c"]
          (renderAbs (resolveFrom ["c"] "/p")) ".t" = some p →
        discoverDirectory (fun k => if k = "PROJECT_DIR" then some "/p" else none)
          (fun q => q = "/p/.t") ["c"] ["h"]
          ⟨none, ".t", some "/a/b", some false, none⟩
        = { path := p, source := Source.envProject, «exists» := true }) :=
  ⟨by decide, by decide, by decide, by decide,
    (claim3_env_project_wins (fun k => if k = "PROJECT_DIR" then some "/p" else none)
      (fun q => q = "/p/.t") ["c"] ["h"] ⟨none, ".t", some "/a/b", some false, none⟩
      "/a/b" "/p" (by decide) (by decide) (by decide) (by decide)).1,
    (claim3_env_project_wins (fun k => if k = "PROJECT_DIR" then some "/p" else none)
      (fun q => q = "/p/.t") ["c"] ["h"] ⟨none, ".t", some "/a/b", some false, none⟩
      "/a/b" "/p" (by decide) (by decide) (by decide) (by decide)).2.2⟩



/-- C7: for every request and every environment and filesystem state, the
`path` of the result of `discoverDirectory` is an absolute,
`.`/`..`-normalized path — on all four return branches (env override,
upward-search hit, home fallback, and the no-fallback give-up result),
including when nothing exists on disk at that path. The hypotheses state
that the process cwd and home directory components contain no separator,
which holds of any real absolute path. -/
theorem claim7_path_absolute_normalized (env : Env) (fs : Fs)
    (cwd home : List String) (options : DirectoryDiscoveryOptions)
    (hcwd : ∀ c ∈ cwd, '/' ∉ c.data) (hhome : ∀ c ∈ home, '/' ∉ c.data) :
    isNormalizedAbsPath (discoverDirectory env fs cwd home options).path := by
  by_cases hov : overrideApplies env options
  · unfold overrideApplies at hov
    rcases hb : options.subdirEnvPrefix with _ | base
    · rw [hb] at hov; exact absurd hov (by simp)
    · rw [hb] at hov
      replace hov : (base ≠ "" && envTruthy env (base ++ SUBDIR_ENV_VAR_SUFFIX))
          = true := hov
      rw [Bool.and_eq_true] at hov
      have hbne : base ≠ "" := by simpa using hov.1
      have hov2 := hov.2
      unfold envTruthy at hov2
      rcases hv : env (base ++ SUBDIR_ENV_VAR_SUFFIX) with _ | v
      · rw [hv] at hov2; exact absurd hov2 (by simp)
      · rw [hv] at hov2
        have hne : v ≠ "" := by simpa using hov2
        rw [discoverDirectory_override hb hbne hv hne]
        exact ⟨resolveFrom cwd v, resolveFrom_clean v hcwd, rfl⟩
  · rw [discoverDirectory_of_no_override fs cwd home (by simpa using hov)]
    rcases hs : searchUpward fs cwd (getStartDirectory env cwd options.startDir)
        options.subdir with _ | p
    · cases hf : options.useHomeFallback.getD true
      · rw [discoverDirectorySearch_miss_nohome hs]
        exact ⟨resolve2 cwd (getStartDirectory env cwd options.startDir)
          options.subdir,
          resolve2_clean cwd (getStartDirectory env cwd options.startDir)
            options.subdir hcwd, rfl⟩
      · rw [discoverDirectorySearch_miss_home hs]
        exact ⟨resolveFrom home (options.homeSubdir.getD options.subdir),
          resolveFrom_clean (options.homeSubdir.getD options.subdir) hhome, rfl⟩
    · rw [discoverDirectorySearch_hit hs]
      exact searchUpward_clean hcwd hs

/-- Witness for C7 at a concrete environment, filesystem and request. -/
theorem claim7_witness :
    (∀ c ∈ (["w"] : List String), '/' ∉ c.data)
    ∧ (∀ c ∈ (["h", "u"] : List String), '/' ∉ c.data)
    ∧ isNormalizedAbsPath (discoverDirectory (fun _ => none) (fun _ => false)
        ["w"] ["h", "u"] ⟨none, "x/../.t", none, some true, none⟩).path :=
  ⟨by decide, by decide,
    claim7_path_absolute_normalized (fun _ => none) (fun _ => false) ["w"] ["h", "u"]
      ⟨none, "x/../.t", none, some true, none⟩ (by decide) (by decide)⟩

/-- C8: `discoverDirectory` is deterministic and pure apart from reads: two
calls with structurally identical options and extensionally identical
environment-variable and filesystem-existence states return structurally
identical results. The embedding passes the environment and filesystem as
read-only functions, mirroring that the source only reads `process.env` and
calls `existsSync`, never mutating either. -/
theorem claim8_deterministic_pure (env1 env2 : Env) (fs1 fs2 : Fs)
    (cwd home : List String) (options : DirectoryDiscoveryOptions)
    (henv : ∀ k, env1 k = env2 k) (hfs : ∀ p, fs1 p = fs2 p) :
    discoverDirectory env1 fs1 cwd home options
      = discoverDirectory env2 fs2 cwd home options := by
  have h1 : env1 = env2 := funext henv
  have h2 : fs1 = fs2 := funext hfs
  rw [h1, h2]

/-- Witness for C8 at two syntactically different but extensionally equal
environments and filesystems. -/
theorem claim8_witness :
    (∀ k, ((fun q => if q = "PROJECT_DIR" then some "/p" else none : Env) k)
        = ((fun q => Option.map id (if q = "PROJECT_DIR" then some "/p" else none) :
            Env) k))
    ∧ (∀ p, ((fun q => q = "/p/.t" : Fs) p) = ((fun q => decide (q = "/p/.t") : Fs) p))
    ∧ discoverDirectory (fun q => if q = "PROJECT_DIR" then some "/p" else none)
        (fun q => q = "/p/.t") ["c"] ["h"] ⟨none, ".t", none, none, none⟩
      = discoverDirectory (fun q => Option.map id (if q = "PROJECT_DIR" then some "/p" else none))
        (fun q => decide (q = "/p/.t")) ["c"] ["h"] ⟨none, ".t", none, none, none⟩ :=
  ⟨fun k => by by_cases h : k = "PROJECT_DIR" <;> simp [h],
    fun p => rfl,
    claim8_deterministic_pure _ _ _ _ ["c"] ["h"] ⟨none, ".t", none, none, none⟩
      (fun k => by by_cases h : k = "PROJECT_DIR" <;> simp [h])
      (fun p => rfl)⟩

/-- C9: every call of `discoverDirectory` performs a bounded number of
filesystem existence checks: at most one for the override variable, one per
directory on the chain from the effective start directory up to and
including the root, and one for the home fallback. (`discoverDirectoryProbes`
counts the `existsSync` calls of the corresponding `discoverDirectory` run;
termination itself holds by construction, every function of the model being
structurally recursive and total.) -/
theorem claim9_bounded_probes (env : Env) (fs : Fs) (cwd home : List String)
    (options : DirectoryDiscoveryOptions) :
    discoverDirectoryProbes env fs cwd home options
      ≤ 1 + ((resolveFrom cwd (getStartDirectory env cwd options.startDir)).length + 1)
          + 1 :=
  discoverDirectoryProbes_le env fs cwd home options


end DirectoryDiscovery
